import Mathlib

/-!
# AutoDCF — verification of the rate-forecasting and valuation core

Shallow embedding of `AutoDCF/DCF/Historical_Rates_Functions.py` and
`AutoDCF/DCF/dcf_main.py`.  Numeric cells are modelled by `PFloat`
(exact rationals plus the IEEE special values `nan`, `inf`, `-inf`
that `numpy` produces), fallible Python code (assertions,
`ZeroDivisionError`, `KeyError`, …) by `Except PyErr`.
-/

/-- Python/numpy floating point value, modelled exactly: a rational
number or one of the special values produced by invalid operations. -/
inductive PFloat where
  | num (q : ℚ)
  | nan
  | inf
  | ninf
deriving DecidableEq, Repr

namespace PFloat

/-- `np.isnan`. -/
def isNan : PFloat → Bool
  | nan => true
  | _ => false

/-- IEEE negation. -/
def neg : PFloat → PFloat
  | num a => num (-a)
  | nan => nan
  | inf => ninf
  | ninf => inf

/-- IEEE addition (`inf + -inf = nan`, `nan` absorbs). -/
def add : PFloat → PFloat → PFloat
  | num a, num b => num (a + b)
  | num _, nan => nan
  | num _, inf => inf
  | num _, ninf => ninf
  | nan, _ => nan
  | inf, num _ => inf
  | inf, inf => inf
  | inf, ninf => nan
  | inf, nan => nan
  | ninf, num _ => ninf
  | ninf, ninf => ninf
  | ninf, inf => nan
  | ninf, nan => nan

/-- IEEE subtraction. -/
def sub (a b : PFloat) : PFloat := a.add b.neg

/-- IEEE multiplication (`0 * inf = nan`, sign rules). -/
def mul : PFloat → PFloat → PFloat
  | num a, num b => num (a * b)
  | num a, inf => if a = 0 then nan else if 0 < a then inf else ninf
  | num a, ninf => if a = 0 then nan else if 0 < a then ninf else inf
  | num _, nan => nan
  | inf, num b => if b = 0 then nan else if 0 < b then inf else ninf
  | inf, inf => inf
  | inf, ninf => ninf
  | inf, nan => nan
  | ninf, num b => if b = 0 then nan else if 0 < b then ninf else inf
  | ninf, inf => ninf
  | ninf, ninf => inf
  | ninf, nan => nan
  | nan, _ => nan

/-- IEEE division by a float (numpy semantics: `0/0 = nan`,
`x/0 = ±inf` for `x ≠ 0`, `x/±inf = 0`, `inf/inf = nan`).
The model has no signed zero, so a zero divisor counts as `+0`. -/
def div : PFloat → PFloat → PFloat
  | num a, num b =>
      if b = 0 then (if a = 0 then nan else if 0 < a then inf else ninf)
      else num (a / b)
  | num _, inf => num 0
  | num _, ninf => num 0
  | num _, nan => nan
  | inf, num b => if b < 0 then ninf else inf
  | inf, inf => nan
  | inf, ninf => nan
  | inf, nan => nan
  | ninf, num b => if b < 0 then inf else ninf
  | ninf, inf => nan
  | ninf, ninf => nan
  | ninf, nan => nan
  | nan, _ => nan

end PFloat

/-- Python `sum` over a list of floats (starts from the int `0`). -/
def pfSum (xs : List PFloat) : PFloat := xs.foldl PFloat.add (PFloat.num 0)

/-- Errors raised by the embedded Python code. -/
inductive PyErr where
  /-- the trailing `assert len(...) == len(data) + period` of every
  forecaster, with the two interpolated lengths of its message -/
  | assertSizeMismatch (got expected : ℕ)
  /-- `assert self.wacc > self.terminal_rate` in `perpetuity_method`,
  with the two interpolated values of its message -/
  | assertWacc (wacc terminalRate : ℚ)
  /-- any other failed `assert`, identified by its source condition -/
  | assertMsg (cond : String)
  | zeroDivision
  | indexError
  | keyError (k : String)
  | attributeError (s : String)
  | typeError (s : String)
  /-- pandas: assigning a column whose length differs from the index -/
  | valueError (s : String)
  /-- `assert not self.dcf.isnull().values.any()` at the end of
  `forcast_categories` -/
  | nanDetected
deriving DecidableEq, Repr

/-- `HistoricalRates.percent_change`:
`diff = np.diff(data) / data[:-1]`, NaN entries dropped, `0` inserted
in front.  Works on any numeric series (NaN cells propagate into the
differences and are then dropped, as in numpy). -/
def percent_change (data : List PFloat) : List PFloat :=
  let diff := List.zipWith (fun prev next => (next.sub prev).div prev) data data.tail
  PFloat.num 0 :: diff.filter (fun d => ¬ d.isNan)

/-- Python slice `xs[-w:]` (for `w = 0` this is `xs[0:]`, the whole
list; for `w > len` it is also the whole list). -/
def pySliceLast (w : ℕ) (xs : List PFloat) : List PFloat :=
  if w = 0 then xs else xs.drop (xs.length - w)

/-- Python float division by an `int` divisor: `ZeroDivisionError`
when the divisor is `0`, otherwise float division. -/
def pyDivInt (x : PFloat) (n : ℕ) : Except PyErr PFloat :=
  if n = 0 then .error .zeroDivision else .ok (x.div (.num n))

/-- `np.linspace(start, stop, n)` (default `endpoint=True`): scaled
`arange` plus `start`, with the last entry forced to `stop` when
`n > 1`; for `n = 1` the step collapses to `delta` and the single
entry is `0 * delta + start`. -/
def linspace (start stop : PFloat) (n : ℕ) : List PFloat :=
  let delta := stop.sub start
  let base := (List.range n).map (fun i =>
    if 2 ≤ n then ((PFloat.num i).mul (delta.div (.num (n - 1)))).add start
    else ((PFloat.num i).mul delta).add start)
  if 2 ≤ n then base.set (n - 1) stop else base

/-- The trailing size assertion shared by every forecaster:
`assert len(out) == len(data) + period` with the interpolated
error message. -/
def lengthAssert (out : List PFloat) (dataLen period : ℕ) :
    Except PyErr (List PFloat) :=
  if out.length = dataLen + period then .ok out
  else .error (.assertSizeMismatch out.length (dataLen + period))

/-- Body of `HistoricalRates.LinearRate` (the code inside the
`@format_percent_change` decorator): copies the (already transformed)
data, builds `np.linspace(data_copy[-1], terminal_rate, period)`, then
runs `assert len(data_copy) == len(data) + period` — note the assert
checks `data_copy`, not the array it returns. -/
def LinearRateBody (period : ℕ) (data : List PFloat) (terminal_rate : ℚ) :
    Except PyErr (List PFloat) :=
  let data_copy := data
  match data_copy.getLast? with
  | none => .error .indexError
  | some last =>
      let arr := linspace last (.num terminal_rate) period
      if data_copy.length = data.length + period then .ok arr
      else .error (.assertSizeMismatch data_copy.length (data.length + period))

/-- `HistoricalRates.LinearRate`: the decorator first replaces the
input by its percent-change transform. -/
def LinearRate (period : ℕ) (data : List PFloat) (terminal_rate : ℚ) :
    Except PyErr (List PFloat) :=
  LinearRateBody period (percent_change data) terminal_rate

/-- Modelled from the spec's words (`operates on raw values, not
percent-change`): the same `LinearRate` body invoked directly on the
raw input series, i.e. what `LinearRate` would be if, as the spec
claims, the percent-change transform were not applied to it. -/
def LinearRate_specNoTransform (period : ℕ) (data : List PFloat)
    (terminal_rate : ℚ) : Except PyErr (List PFloat) :=
  LinearRateBody period data terminal_rate

/-! ## The remaining deterministic forecasters

Each keeps the source's shape: asserts, a sequential loop appending one
value per step, and the trailing size assertion.  The loop index `i`
of `for i in range(period)` is recovered from the remaining count. -/

/-- Loop of `HistoricalRates.MovingAverage`: repeatedly append
`sum(data_copy[-window:]) / window`. -/
def maLoop (window : ℕ) : ℕ → List PFloat → Except PyErr (List PFloat)
  | 0, dc => .ok dc
  | n + 1, dc => do
      let avg ← pyDivInt (pfSum (pySliceLast window dc)) window
      maLoop window n (dc ++ [avg])

/-- Body of `HistoricalRates.MovingAverage` (after the decorator). -/
def MovingAverageBody (period : ℕ) (data : List PFloat) (window : ℕ) :
    Except PyErr (List PFloat) :=
  if window ≤ data.length then do
    let dc ← maLoop window period data
    lengthAssert dc data.length period
  else .error (.assertMsg "window <= len(data)")

/-- `HistoricalRates.MovingAverage` (decorator applied). -/
def MovingAverage (period : ℕ) (data : List PFloat) (window : ℕ) :
    Except PyErr (List PFloat) :=
  MovingAverageBody period (percent_change data) window

/-- Loop of `ConvergingMovingAverage`: moving-average step then blend
toward `terminal_rate` with `alpha = (i+1)/period`. -/
def cmaLoop (window period : ℕ) (terminal_rate : ℚ) :
    ℕ → List PFloat → Except PyErr (List PFloat)
  | 0, dc => .ok dc
  | n + 1, dc => do
      let avg ← pyDivInt (pfSum (pySliceLast window dc)) window
      let i := period - (n + 1)
      let alpha : ℚ := ((i : ℚ) + 1) / (period : ℚ)
      let avg := ((PFloat.num (1 - alpha)).mul avg).add
        ((PFloat.num alpha).mul (.num terminal_rate))
      cmaLoop window period terminal_rate n (dc ++ [avg])

/-- Body of `HistoricalRates.ConvergingMovingAverage`. -/
def ConvergingMovingAverageBody (period : ℕ) (data : List PFloat)
    (window : ℕ) (terminal_rate : ℚ) : Except PyErr (List PFloat) :=
  if window ≤ data.length then
    if terminal_rate = 0 then .error (.assertMsg "terminal_rate")
    else do
      let dc ← cmaLoop window period terminal_rate period data
      lengthAssert dc data.length period
  else .error (.assertMsg "window <= len(data)")

/-- `HistoricalRates.ConvergingMovingAverage` (decorator applied). -/
def ConvergingMovingAverage (period : ℕ) (data : List PFloat)
    (window : ℕ) (terminal_rate : ℚ) : Except PyErr (List PFloat) :=
  ConvergingMovingAverageBody period (percent_change data) window terminal_rate

/-- `alpha = alpha if alpha else 2 / (window + 1)`: a missing or falsy
(zero) smoothing factor is replaced by the default. -/
def alphaResolve (alpha : Option ℚ) (window : ℕ) : ℚ :=
  match alpha with
  | some a => if a = 0 then 2 / ((window : ℚ) + 1) else a
  | none => 2 / ((window : ℚ) + 1)

/-- Loop of `ExponentialMovingAverage`:
`ema = alpha * mean(data_copy[-window:]) + (1 - alpha) * data_copy[-1]`. -/
def emaLoop (alpha : ℚ) (window : ℕ) :
    ℕ → List PFloat → Except PyErr (List PFloat)
  | 0, dc => .ok dc
  | n + 1, dc => do
      let localAvg ← pyDivInt (pfSum (pySliceLast window dc)) window
      match dc.getLast? with
      | none => .error .indexError
      | some last =>
          let ema := ((PFloat.num alpha).mul localAvg).add
            ((PFloat.num (1 - alpha)).mul last)
          emaLoop alpha window n (dc ++ [ema])

/-- Body of `HistoricalRates.ExponentialMovingAverage`. -/
def ExponentialMovingAverageBody (period : ℕ) (data : List PFloat)
    (window : ℕ) (alpha : Option ℚ) : Except PyErr (List PFloat) :=
  if window ≤ data.length then do
    let dc ← emaLoop (alphaResolve alpha window) window period data
    lengthAssert dc data.length period
  else .error (.assertMsg "window <= len(data)")

/-- `HistoricalRates.ExponentialMovingAverage` (decorator applied). -/
def ExponentialMovingAverage (period : ℕ) (data : List PFloat)
    (window : ℕ) (alpha : Option ℚ) : Except PyErr (List PFloat) :=
  ExponentialMovingAverageBody period (percent_change data) window alpha

/-- Loop of `ConvergingExponentialMovingAverage`: EMA step then blend
toward `terminal_rate` with `beta = (i+1)/period`. -/
def cemaLoop (alpha terminal_rate : ℚ) (window period : ℕ) :
    ℕ → List PFloat → Except PyErr (List PFloat)
  | 0, dc => .ok dc
  | n + 1, dc => do
      let localAvg ← pyDivInt (pfSum (pySliceLast window dc)) window
      match dc.getLast? with
      | none => .error .indexError
      | some last =>
          let ema := ((PFloat.num alpha).mul localAvg).add
            ((PFloat.num (1 - alpha)).mul last)
          let i := period - (n + 1)
          let beta : ℚ := ((i : ℚ) + 1) / (period : ℚ)
          let ema := ((PFloat.num (1 - beta)).mul ema).add
            ((PFloat.num beta).mul (.num terminal_rate))
          cemaLoop alpha terminal_rate window period n (dc ++ [ema])

/-- Body of `HistoricalRates.ConvergingExponentialMovingAverage`. -/
def ConvergingExponentialMovingAverageBody (period : ℕ) (data : List PFloat)
    (window : ℕ) (terminal_rate : ℚ) (alpha : Option ℚ) :
    Except PyErr (List PFloat) :=
  if window ≤ data.length then
    if terminal_rate = 0 then .error (.assertMsg "terminal_rate")
    else do
      let dc ← cemaLoop (alphaResolve alpha window) terminal_rate window
        period period data
      lengthAssert dc data.length period
  else .error (.assertMsg "window <= len(data)")

/-- `HistoricalRates.ConvergingExponentialMovingAverage`
(decorator applied). -/
def ConvergingExponentialMovingAverage (period : ℕ) (data : List PFloat)
    (window : ℕ) (terminal_rate : ℚ) (alpha : Option ℚ) :
    Except PyErr (List PFloat) :=
  ConvergingExponentialMovingAverageBody period (percent_change data)
    window terminal_rate alpha

/-- Loop of `WeightedMovingAverage`:
`sum(weight * rate for weight, rate in zip(weights, select_years))`. -/
def wmaLoop (weights : List ℚ) (window : ℕ) :
    ℕ → List PFloat → List PFloat
  | 0, dc => dc
  | n + 1, dc =>
      let sel := pySliceLast window dc
      let avg := pfSum (List.zipWith (fun w r => (PFloat.num w).mul r) weights sel)
      wmaLoop weights window n (dc ++ [avg])

/-- Body of `HistoricalRates.WeightedMovingAverage`. -/
def WeightedMovingAverageBody (period : ℕ) (data : List PFloat)
    (window : ℕ) (weights : List ℚ) : Except PyErr (List PFloat) :=
  if window ≤ data.length then
    if window = weights.length then
      lengthAssert (wmaLoop weights window period data) data.length period
    else .error (.assertMsg "window == len(weights)")
  else .error (.assertMsg "window <= len(data)")

/-- `HistoricalRates.WeightedMovingAverage` (decorator applied). -/
def WeightedMovingAverage (period : ℕ) (data : List PFloat)
    (window : ℕ) (weights : List ℚ) : Except PyErr (List PFloat) :=
  WeightedMovingAverageBody period (percent_change data) window weights

/-- Loop of `ConvergingWeightedMovingAverage`. -/
def cwmaLoop (weights : List ℚ) (window period : ℕ) (terminal_rate : ℚ) :
    ℕ → List PFloat → List PFloat
  | 0, dc => dc
  | n + 1, dc =>
      let sel := pySliceLast window dc
      let avg := pfSum (List.zipWith (fun w r => (PFloat.num w).mul r) weights sel)
      let i := period - (n + 1)
      let alpha : ℚ := ((i : ℚ) + 1) / (period : ℚ)
      let avg := ((PFloat.num (1 - alpha)).mul avg).add
        ((PFloat.num alpha).mul (.num terminal_rate))
      cwmaLoop weights window period terminal_rate n (dc ++ [avg])

/-- Body of `HistoricalRates.ConvergingWeightedMovingAverage`
(note: no truthiness assert on `terminal_rate` in the source). -/
def ConvergingWeightedMovingAverageBody (period : ℕ) (data : List PFloat)
    (window : ℕ) (weights : List ℚ) (terminal_rate : ℚ) :
    Except PyErr (List PFloat) :=
  if window ≤ data.length then
    if window = weights.length then
      lengthAssert (cwmaLoop weights window period terminal_rate period data)
        data.length period
    else .error (.assertMsg "window == len(weights)")
  else .error (.assertMsg "window <= len(data)")

/-- `HistoricalRates.ConvergingWeightedMovingAverage`
(decorator applied). -/
def ConvergingWeightedMovingAverage (period : ℕ) (data : List PFloat)
    (window : ℕ) (weights : List ℚ) (terminal_rate : ℚ) :
    Except PyErr (List PFloat) :=
  ConvergingWeightedMovingAverageBody period (percent_change data)
    window weights terminal_rate

/-- Loop of `MeanReverting`:
`rate = last + phi * (last - prev) - kappa * (last - terminal_rate)`. -/
def mrLoop (phi kappa terminal_rate : ℚ) :
    ℕ → List PFloat → Except PyErr (List PFloat)
  | 0, dc => .ok dc
  | n + 1, dc =>
      match dc.reverse with
      | last :: prev :: _ =>
          let delta1 := last.sub prev
          let delta2 := last.sub (.num terminal_rate)
          let rate := (last.add ((PFloat.num phi).mul delta1)).sub
            ((PFloat.num kappa).mul delta2)
          mrLoop phi kappa terminal_rate n (dc ++ [rate])
      | _ => .error .indexError

/-- Body of `HistoricalRates.MeanReverting`. -/
def MeanRevertingBody (period : ℕ) (data : List PFloat)
    (terminal_rate phi kappa : ℚ) : Except PyErr (List PFloat) :=
  if 2 ≤ data.length then do
    let dc ← mrLoop phi kappa terminal_rate period data
    lengthAssert dc data.length period
  else .error (.assertMsg "len(data) >= 2")

/-- `HistoricalRates.MeanReverting` (decorator applied; `phi` and
`kappa` default to `0.7` and `0.2`). -/
def MeanReverting (period : ℕ) (data : List PFloat)
    (terminal_rate phi kappa : ℚ) : Except PyErr (List PFloat) :=
  MeanRevertingBody period (percent_change data) terminal_rate phi kappa

/-! ## Forecast policy resolver (`dcf_main.py`)

The `dcf` DataFrame is modelled as an ordered association list of
columns; cells are `PFloat` (a pandas `NaN` cell is `PFloat.nan`).
The user's `rate_map` is an association list of per-column
configurations.  Python's in-place mutations of the rate map
(`manual_rates.extend(...)`, `params['terminal_rate'] = ...`) are made
explicit by threading the map through the computation. -/

/-- A `terminal_rate` parameter: either the sentinel string
`'Auto'`/`'auto'`/`'AUTO'` or a number. -/
inductive TermRate where
  | auto
  | val (q : ℚ)
deriving DecidableEq, Repr

/-- The `parameters` dict of a rate-map entry.  A `none` field is a
key that is absent from the dict. -/
structure RateParams where
  window : Option ℕ := none
  terminal_rate : Option TermRate := none
  alpha : Option ℚ := none
  weights : Option (List ℚ) := none
  phi : Option ℚ := none
  kappa : Option ℚ := none
deriving DecidableEq, Repr

/-- `str(rate_mapping.get('mode')).lower()`; any string other than
`'auto'`/`'hybrid'`/`'manual'` (including a missing key) falls through
every branch of the dispatch. -/
inductive Mode where
  | auto
  | hybrid
  | manual
  | unknown
deriving DecidableEq, Repr

/-- One entry of the user's `rate_map`. -/
structure RateMapping where
  mode : Mode
  auto_method : Option String := none
  manual_rates : Option (List PFloat) := none
  parameters : Option RateParams := none
deriving DecidableEq, Repr

/-- `DCF.get_auto_rates`: dynamic dispatch on the forecaster name.
The `hasattr` assert becomes the catch-all `attributeError` branch;
passing a parameter a method does not accept (or omitting a required
one) is Python's `TypeError`.  The stochastic methods (`Uniform`,
`MonteCarlo`, `ConvergingMonteCarlo`) exist in the source but draw
unseeded random numbers, so the deterministic model stops at them. -/
def get_auto_rates (period : ℕ) (data : List PFloat) (rate_type : String)
    (params : RateParams) : Except PyErr (List PFloat) :=
  match rate_type with
  | "MovingAverage" =>
      match params with
      | ⟨some w, none, none, none, none, none⟩ => MovingAverage period data w
      | _ => .error (.typeError "MovingAverage() parameters")
  | "ConvergingMovingAverage" =>
      match params with
      | ⟨some w, some (.val t), none, none, none, none⟩ =>
          ConvergingMovingAverage period data w t
      | _ => .error (.typeError "ConvergingMovingAverage() parameters")
  | "ExponentialMovingAverage" =>
      match params with
      | ⟨some w, none, a, none, none, none⟩ =>
          ExponentialMovingAverage period data w a
      | _ => .error (.typeError "ExponentialMovingAverage() parameters")
  | "ConvergingExponentialMovingAverage" =>
      match params with
      | ⟨some w, some (.val t), a, none, none, none⟩ =>
          ConvergingExponentialMovingAverage period data w t a
      | _ => .error (.typeError "ConvergingExponentialMovingAverage() parameters")
  | "WeightedMovingAverage" =>
      match params with
      | ⟨some w, none, none, some ws, none, none⟩ =>
          WeightedMovingAverage period data w ws
      | _ => .error (.typeError "WeightedMovingAverage() parameters")
  | "ConvergingWeightedMovingAverage" =>
      match params with
      | ⟨some w, some (.val t), none, some ws, none, none⟩ =>
          ConvergingWeightedMovingAverage period data w ws t
      | _ => .error (.typeError "ConvergingWeightedMovingAverage() parameters")
  | "MeanReverting" =>
      match params with
      | ⟨none, some (.val t), none, none, phi, kappa⟩ =>
          MeanReverting period data t (phi.getD (7 / 10)) (kappa.getD (2 / 10))
      | _ => .error (.typeError "MeanReverting() parameters")
  | "LinearRate" =>
      match params with
      | ⟨none, some (.val t), none, none, none, none⟩ =>
          LinearRate period data t
      | _ => .error (.typeError "LinearRate() parameters")
  | "Uniform" => .error (.typeError "stochastic method outside model")
  | "MonteCarlo" => .error (.typeError "stochastic method outside model")
  | "ConvergingMonteCarlo" => .error (.typeError "stochastic method outside model")
  | s => .error (.attributeError s)

/-- A DataFrame column. -/
abbrev Col := List PFloat

/-- The `dcf` DataFrame: ordered columns by name. -/
abbrev Table := List (String × Col)

/-- The `rate_map` dict. -/
abbrev RateMap := List (String × RateMapping)

/-- `df[c]` (read). -/
def lookupCol (tbl : Table) (c : String) : Option Col :=
  (tbl.find? (fun kv => kv.1 = c)).map (·.2)

/-- `df[c] = v`: overwrite an existing column in place, or append a
new column at the end. -/
def setCol (tbl : Table) (c : String) (v : Col) : Table :=
  if tbl.any (fun kv => kv.1 = c) then
    tbl.map (fun kv => if kv.1 = c then (c, v) else kv)
  else tbl ++ [(c, v)]

/-- `rate_map[c]` (read). -/
def lookupRM (rmap : RateMap) (c : String) : Option RateMapping :=
  (rmap.find? (fun kv => kv.1 = c)).map (·.2)

/-- In-place mutation of an existing rate-map entry. -/
def setRM (rmap : RateMap) (c : String) (m : RateMapping) : RateMap :=
  rmap.map (fun kv => if kv.1 = c then (c, m) else kv)

/-- `np.cumprod`. -/
def cumProdAux (acc : PFloat) : List PFloat → List PFloat
  | [] => [acc]
  | x :: xs => acc :: cumProdAux (acc.mul x) xs

/-- `np.cumprod`: running products, same length as the input. -/
def cumProd : List PFloat → List PFloat
  | [] => []
  | x :: xs => cumProdAux x xs

/-- `DCF.update_category`:
`cum = np.cumprod(rates[-period:] + 1) * float(col.iloc[hist-1])`,
wrapped into a series indexed on the last `period` index labels and
used to `fillna` the column.  Missing `{c}_rates` column is pandas'
`KeyError`; `iloc[hist-1]` out of range is `IndexError` (the
constructor asserts `historical_period >= 1`, so the index is
non-negative); a series whose length does not match its index slice is
pandas' `ValueError`. -/
def update_category (period historical_period : ℕ) (c : String)
    (tbl : Table) : Except PyErr Table :=
  match lookupCol tbl (c ++ "_rates") with
  | none => .error (.keyError (c ++ "_rates"))
  | some rates =>
      match lookupCol tbl c with
      | none => .error (.keyError c)
      | some col =>
          let cum := cumProd ((pySliceLast period rates).map (·.add (.num 1)))
          match col.get? (historical_period - 1) with
          | none => .error .indexError
          | some v0 =>
              let cum := cum.map (·.mul v0)
              let tailLen := (pySliceLast period col).length
              if cum.length = tailLen then
                let front := col.take (col.length - tailLen)
                let back := List.zipWith
                  (fun cell f => if cell.isNan then f else cell)
                  (col.drop (col.length - tailLen)) cum
                .ok (setCol tbl c (front ++ back))
              else .error (.valueError "series length does not match index")

/-- The warning `forcast_categories` prints for a column that has no
rate-map entry. -/
def missingColMsg (c : String) : String :=
  s!"[ERROR] {c} does not exist in dcf column"

/-- The `auto`/`hybrid`/`manual` dispatch of the `forcast_categories`
loop body for one column (everything except the unconditional
`update_category` at the bottom of the loop).  Returns the updated
table and (possibly mutated) rate map. -/
def processColumnDispatch (cagr : ℚ) (period historical_period : ℕ) (c : String)
    (m : RateMapping) (tbl : Table) (rmap : RateMap) :
    Except PyErr (Table × RateMap) :=
  match m.mode with
    | .auto =>
        match m.parameters with
        | none => .error (.attributeError "'NoneType' object has no attribute 'get'")
        | some ps => do
            let (ps, rmap) :=
              if ps.terminal_rate = some .auto then
                let ps := { ps with terminal_rate := some (.val cagr) }
                (ps, setRM rmap c { m with parameters := some ps })
              else (ps, rmap)
            match m.auto_method with
            | none => .error (.assertMsg "rate_type is not type str")
            | some rt =>
                match lookupCol tbl c with
                | none => .error (.keyError c)
                | some col => do
                    let rates ← get_auto_rates period col rt ps
                    if rates.length = col.length then
                      pure (setCol tbl (c ++ "_rates") rates, rmap)
                    else .error (.valueError "length of values does not match index")
    | .hybrid =>
        match m.manual_rates with
        | none => .error (.assertMsg "Manual input is not correct datatype")
        | some mr =>
            if mr.length < period then
              match m.auto_method with
              | none => .error (.assertMsg "auto_fill input is not correct datatype")
              | some auto_fill =>
                  match m.parameters with
                  | none => .error (.assertMsg "params input is not correct datatype")
                  | some ps => do
                      let (ps, m, rmap) :=
                        if ps.terminal_rate = some .auto then
                          let ps := { ps with terminal_rate := some (.val cagr) }
                          let m := { m with parameters := some ps }
                          (ps, m, setRM rmap c m)
                        else (ps, m, rmap)
                      let diff := period - mr.length
                      let mrExt := mr ++ List.replicate diff PFloat.nan
                      let m := { m with manual_rates := some mrExt }
                      let rmap := setRM rmap c m
                      match lookupCol tbl c with
                      | none => .error (.keyError c)
                      | some col => do
                          let ratesCol := percent_change col ++ mrExt
                          if ratesCol.length = col.length then do
                            let tbl := setCol tbl (c ++ "_rates") ratesCol
                            let tbl ← update_category period historical_period c tbl
                            match lookupCol tbl c with
                            | none => .error (.keyError c)
                            | some col2 => do
                                let rates2 ← get_auto_rates diff col2 auto_fill ps
                                if rates2.length = col2.length then
                                  pure (setCol tbl (c ++ "_rates") rates2, rmap)
                                else .error (.valueError "length of values does not match index")
                          else .error (.valueError "length of values does not match index")
            else .error (.assertMsg "Mismatch in manual input length")
    | .manual =>
        match m.manual_rates with
        | none => .error (.assertMsg "Manual input is not correct datatype")
        | some mr =>
            if mr.length = period then
              match lookupCol tbl c with
              | none => .error (.keyError c)
              | some col =>
                  let ratesCol := percent_change col ++ mr
                  if ratesCol.length = col.length then
                    pure (setCol tbl (c ++ "_rates") ratesCol, rmap)
                  else .error (.valueError "length of values does not match index")
            else .error (.assertMsg "Mismatch in manual input length")
    | .unknown => pure (tbl, rmap)

/-- One iteration of the `forcast_categories` loop for a column that
does have a rate-map entry: the mode dispatch followed by the
unconditional `update_category` at the bottom of the loop body. -/
def processColumn (cagr : ℚ) (period historical_period : ℕ) (c : String)
    (m : RateMapping) (tbl : Table) (rmap : RateMap) :
    Except PyErr (Table × RateMap) := do
  let (tbl1, rmap1) ← processColumnDispatch cagr period historical_period c m tbl rmap
  let tbl2 ← update_category period historical_period c tbl1
  pure (tbl2, rmap1)

/-- The `for column in self.dcf.columns` loop of `forcast_categories`,
over the snapshot of column names taken when the loop starts.  The
first component collects the non-fatal `print` warnings emitted before
the run ended. -/
def runCols (cagr : ℚ) (period historical_period : ℕ) :
    List String → Table → RateMap → List String →
    List String × Except PyErr (Table × RateMap)
  | [], tbl, rmap, log => (log, .ok (tbl, rmap))
  | c :: rest, tbl, rmap, log =>
      match lookupRM rmap c with
      | none =>
          runCols cagr period historical_period rest tbl rmap
            (log ++ [missingColMsg c])
      | some m =>
          match processColumn cagr period historical_period c m tbl rmap with
          | .error e => (log, .error e)
          | .ok (tbl, rmap) =>
              runCols cagr period historical_period rest tbl rmap log

/-- `df.isnull().values.any()` over the whole table (including the
added `_rates` columns). -/
def tableHasNan (tbl : Table) : Bool :=
  tbl.any (fun kv => kv.2.any (·.isNan))

/-- `DCF.forcast_categories`: loop over the column snapshot, then the
final `assert not self.dcf.isnull().values.any()`. -/
def forcast_categories (cagr : ℚ) (period historical_period : ℕ)
    (tbl : Table) (rmap : RateMap) :
    List String × Except PyErr (Table × RateMap) :=
  let cols := tbl.map Prod.fst
  match runCols cagr period historical_period cols tbl rmap [] with
  | (log, .error e) => (log, .error e)
  | (log, .ok (tbl, rmap)) =>
      (log, if tableHasNan tbl then .error .nanDetected else .ok (tbl, rmap))

/-! ## Valuation engine (`dcf_main.py`)

After a successful `forcast_categories` run the table holds no NaN
(this is asserted), so the free-cash-flow and valuation arithmetic is
carried out over exact rationals. -/

/-- `Series.diff()` followed by `.fillna(0)`: period-over-period
differences with the undefined first difference as `0`. -/
def pyDiff0 (xs : List ℚ) : List ℚ :=
  match xs with
  | [] => []
  | _ :: _ => 0 :: List.zipWith (fun next prev => next - prev) xs.tail xs

/-- Python slice `xs[-w:]` over rationals. -/
def pySliceLastQ (w : ℕ) (xs : List ℚ) : List ℚ :=
  if w = 0 then xs else xs.drop (xs.length - w)

/-- Elementwise `a + b - |c| - d` over four columns
(pandas aligns them on the shared index). -/
def ufcfOf (nopat da capex delta_nwc : List ℚ) : List ℚ :=
  List.zipWith (fun x y => x - y)
    (List.zipWith (fun x y => x + y) nopat da)
    (List.zipWith (fun x y => |x| + y) capex delta_nwc)

/-- `DCF.get_future_fcf`:
`delta_nwc = nwc.diff()`,
`UFCF = nopat + da - abs(capex) - delta_nwc.fillna(0)`,
`PV = UFCF[-period:] / [(1+wacc)**y for y in 1..period]` padded with
leading zeros to the table length.  Returns the
`(Unlevered_CashFlow, Present_CashFlow)` columns. -/
def get_future_fcf (wacc : ℚ) (period : ℕ)
    (nopat da capex nwc : List ℚ) : List ℚ × List ℚ :=
  let delta_nwc := pyDiff0 nwc
  let ufcf := ufcfOf nopat da capex delta_nwc
  let discounts := (List.range period).map (fun i => (1 + wacc) ^ (i + 1))
  let pvs := List.zipWith (fun u d => u / d) (pySliceLastQ period ufcf) discounts
  let padding := ufcf.length - pvs.length
  (ufcf, List.replicate padding 0 ++ pvs)

/-- `DCF.perpetuity_method`:
asserts `wacc > terminal_rate`, then
`TV = UFCF_last * (1+g) / (wacc - g)`,
`PTV = TV / (1+wacc)**period`,
`EV = sum(Present_CashFlow.iloc[period:]) + PTV`,
`price = (EV - netDebt) / sharesOutstanding`.
`(1+wacc)**period = 0` or zero shares is Python's
`ZeroDivisionError`. -/
def perpetuity_method (wacc terminal_rate : ℚ) (period : ℕ)
    (presentCashFlow : List ℚ) (ufcfLast netDebt shares : ℚ) :
    Except PyErr ℚ :=
  if wacc > terminal_rate then
    let terminal_value := ufcfLast * (1 + terminal_rate) / (wacc - terminal_rate)
    if (1 + wacc) ^ period = 0 then .error .zeroDivision else
    let present_terminal_value := terminal_value / (1 + wacc) ^ period
    let enterprise_value := (presentCashFlow.drop period).sum + present_terminal_value
    let equity := enterprise_value - netDebt
    if shares = 0 then .error .zeroDivision else .ok (equity / shares)
  else .error (.assertWacc wacc terminal_rate)

/-- `DCF.exit_multiple_method`:
`TV = (da_last + ebit_last) * exit_multiple`, then the same
discounting, `EV = sum(Present_CashFlow.iloc[period:]) + PTV`, and
equity/price derivation. -/
def exit_multiple_method (wacc : ℚ) (period : ℕ)
    (presentCashFlow : List ℚ) (daLast ebitLast exit_multiple netDebt shares : ℚ) :
    Except PyErr ℚ :=
  let terminal_value := (daLast + ebitLast) * exit_multiple
  if (1 + wacc) ^ period = 0 then .error .zeroDivision else
  let present_terminal_value := terminal_value / (1 + wacc) ^ period
  let enterprise_value := (presentCashFlow.drop period).sum + present_terminal_value
  let equity := enterprise_value - netDebt
  if shares = 0 then .error .zeroDivision else .ok (equity / shares)

/-- Modelled from the spec's words:
`EnterpriseValue = Σ PV(FCF over horizon) + PV(TV)` — the present
values of the `period` forecast periods are the last `period` entries
of the `Present_CashFlow` column (historical periods carry PV 0). -/
def spec_enterprise_value (period : ℕ) (presentCashFlow : List ℚ)
    (presentTerminalValue : ℚ) : ℚ :=
  (pySliceLastQ period presentCashFlow).sum + presentTerminalValue

/-- Modelled from the spec's words: `Equity = EnterpriseValue - NetDebt`,
`Price = Equity / SharesOutstanding`, with the perpetuity-method
terminal value. -/
def spec_perpetuity_price (wacc terminal_rate : ℚ) (period : ℕ)
    (presentCashFlow : List ℚ) (ufcfLast netDebt shares : ℚ) : ℚ :=
  let terminal_value := ufcfLast * (1 + terminal_rate) / (wacc - terminal_rate)
  let present_terminal_value := terminal_value / (1 + wacc) ^ period
  (spec_enterprise_value period presentCashFlow present_terminal_value - netDebt) / shares

/-- Modelled from the spec's words: the exit-multiple price with the
enterprise value summing the present values of all horizon periods. -/
def spec_exit_multiple_price (wacc : ℚ) (period : ℕ)
    (presentCashFlow : List ℚ) (daLast ebitLast exit_multiple netDebt shares : ℚ) : ℚ :=
  let terminal_value := (daLast + ebitLast) * exit_multiple
  let present_terminal_value := terminal_value / (1 + wacc) ^ period
  (spec_enterprise_value period presentCashFlow present_terminal_value - netDebt) / shares

/-! ## Rational-level helpers -/

/-- Decidable equality for `Except` results, so that concrete runs of
the embedded code can be checked by `decide`. -/
instance {ε α : Type} [DecidableEq ε] [DecidableEq α] :
    DecidableEq (Except ε α) := fun
  | .error e, .error e' =>
      if h : e = e' then .isTrue (by rw [h])
      else .isFalse (fun hc => h (Except.error.inj hc))
  | .error _, .ok _ => .isFalse (fun hc => Except.noConfusion hc)
  | .ok _, .error _ => .isFalse (fun hc => Except.noConfusion hc)
  | .ok a, .ok b =>
      if h : a = b then .isTrue (by rw [h])
      else .isFalse (fun hc => h (Except.ok.inj hc))

/-- `np.cumprod` over exact rationals (same recursion as `cumProd`),
used to relate the `PFloat` computation to rational arithmetic. -/
def cumProdQAux (acc : ℚ) : List ℚ → List ℚ
  | [] => [acc]
  | x :: xs => acc :: cumProdQAux (acc * x) xs

/-- `np.cumprod` over exact rationals. -/
def cumProdQ : List ℚ → List ℚ
  | [] => []
  | x :: xs => cumProdQAux x xs

/-- The compounding expression of `DCF.update_category`
(`np.cumprod(rates + 1) * V0`) applied to an exact forecast rate
series `r_1..r_h`: the forecasted absolute values
`V_i = V0 * prod (1 + r_j)` for `j = 1..i`. -/
def update_compound (v0 : ℚ) (rs : List ℚ) : List PFloat :=
  (cumProd (rs.map (fun r => (PFloat.num r).add (PFloat.num 1)))).map
    (·.mul (PFloat.num v0))

/-! ## Theorems -/

/-- Supporting lemma: on a series of plain numbers whose entries other
than the last are nonzero, `percent_change` keeps every difference
(nothing is NaN) and computes the consecutive relative changes
`(x[i] - x[i-1]) / x[i-1]` after the leading `0`. -/
theorem percent_change_num (xs : List ℚ) (h : ∀ a ∈ xs.dropLast, a ≠ 0) :
    percent_change (xs.map PFloat.num) =
      PFloat.num 0 :: List.zipWith (fun a b => PFloat.num ((b - a) / a)) xs xs.tail := by
  unfold percent_change
  simp only [List.cons.injEq, true_and]
  induction xs with
  | nil => simp
  | cons a tl ih =>
      cases tl with
      | nil => simp
      | cons b rest =>
          have ha : a ≠ 0 := h a (by simp [List.dropLast])
          have hrest : ∀ x ∈ (b :: rest).dropLast, x ≠ 0 := by
            intro x hx
            exact h x (by simpa [List.dropLast] using Or.inr hx)
          simp only [List.map_cons, List.tail_cons, List.zipWith_cons_cons] at ih ⊢
          have hdiv : ((PFloat.num b).sub (PFloat.num a)).div (PFloat.num a) =
              PFloat.num ((b - a) / a) := by
            simp [PFloat.sub, PFloat.neg, PFloat.add, PFloat.div, ha, sub_eq_add_neg]
          rw [hdiv, List.filter_cons_of_pos rfl]
          exact congrArg _ (ih hrest)

/-- Supporting lemma: `getLast?` of a non-empty list is `some`. -/
theorem getLast?_cons_some (y : PFloat) (l : List PFloat) :
    ∃ x, (y :: l).getLast? = some x := by
  induction l generalizing y with
  | nil => exact ⟨y, rfl⟩
  | cons b m ih =>
      obtain ⟨x, hx⟩ := ih b
      exact ⟨x, by rw [List.getLast?_cons_cons]; exact hx⟩

/-- Supporting lemma: for any positive horizon, the body of
`LinearRate` reaches its size assertion with the unmodified copy of
the input and therefore raises. -/
theorem LinearRateBody_pos (p : ℕ) (hp : 1 ≤ p) (y : PFloat) (l : List PFloat)
    (t : ℚ) :
    LinearRateBody p (y :: l) t =
      .error (.assertSizeMismatch (y :: l).length ((y :: l).length + p)) := by
  unfold LinearRateBody
  obtain ⟨x, hx⟩ := getLast?_cons_some y l
  simp only [hx]
  rw [if_neg (by omega)]

/-- Claim C1.  The spec's length invariant (`len(F(h, data, params)) =
len(data) + h`, or `= h` for the rate-only `LinearRate`, with an abort
only on a violation) is broken by the code: at horizon `h = 1` on the
two-point series `[1, 2]`, `LinearRate`'s interpolation array does
have the invariant length `h = 1`, yet the function raises its
"Mismatch in Size" assertion anyway, because the assertion compares
the *unmodified copy* of the input (length 2) with `len(data) + h = 3`
instead of checking the array it returns. -/
theorem C1_linearRate_asserts_despite_invariant :
    LinearRate 1 [PFloat.num 1, PFloat.num 2] (1 / 2) =
      .error (.assertSizeMismatch 2 3)
    ∧ (linspace (PFloat.num 1) (PFloat.num (1 / 2)) 1).length = 1 :=
  ⟨by decide, by decide⟩

/-- Claim C2, counterexample.  `LinearRate(horizon = 5, data = [5, 10],
terminal_rate = 20)` does not return the five evenly spaced points
`10, 12.5, 15, 17.5, 20` claimed by the spec: it raises the size
assertion (`2 != 7`) instead. -/
theorem C2_counterexample :
    LinearRate 5 [PFloat.num 5, PFloat.num 10] 20 ≠
      Except.ok [PFloat.num 10, PFloat.num (25 / 2), PFloat.num 15,
        PFloat.num (35 / 2), PFloat.num 20] := by
  decide

/-- Claim C2, amended.  `LinearRate` first applies the percent-change
transform to its input; for every horizon `h ≥ 1` its size assertion
then compares the unmodified transformed copy (length `n`) with
`n + h` and raises, so the interpolated points are never returned. -/
theorem C2_linearRate_always_raises (p : ℕ) (data : List PFloat) (t : ℚ)
    (hp : 1 ≤ p) :
    LinearRate p data t =
      .error (.assertSizeMismatch (percent_change data).length
        ((percent_change data).length + p)) := by
  obtain ⟨y, l, hyl⟩ : ∃ y l, percent_change data = y :: l := ⟨_, _, rfl⟩
  unfold LinearRate
  rw [hyl, LinearRateBody_pos p hp]

/-- Claim C2, witness for the amended theorem at horizon 1. -/
theorem C2_linearRate_always_raises_witness :
    LinearRate 1 [PFloat.num 5, PFloat.num 10] 20 =
      .error (.assertSizeMismatch 2 3) := by
  rw [C2_linearRate_always_raises 1 [PFloat.num 5, PFloat.num 10] 20 (by norm_num)]
  norm_num [percent_change, PFloat.sub, PFloat.neg, PFloat.add, PFloat.div,
    PFloat.isNan, List.filter]

/-- Claim C3, counterexample.  The claim that the percent-change
transform is applied to every forecaster *except* `LinearRate` is
false: `LinearRate` is decorated like the others.  On the series
`[5, 0, 0, 10]` the transform drops the NaN difference `(0-0)/0`,
shortening the series from 4 to 3 entries, so the decorated source
function and the spec's untransformed variant raise size assertions
with different interpolated lengths (`3 != 4` versus `4 != 5`). -/
theorem C3_counterexample :
    LinearRate 1 [PFloat.num 5, PFloat.num 0, PFloat.num 0, PFloat.num 10] 20 ≠
      LinearRate_specNoTransform 1
        [PFloat.num 5, PFloat.num 0, PFloat.num 0, PFloat.num 10] 20 := by
  have h1 : LinearRate 1 [PFloat.num 5, PFloat.num 0, PFloat.num 0, PFloat.num 10] 20 =
      .error (.assertSizeMismatch 3 4) := by
    norm_num [LinearRate, LinearRateBody, percent_change, PFloat.sub, PFloat.neg,
      PFloat.add, PFloat.div, PFloat.isNan, List.filter]
  have h2 : LinearRate_specNoTransform 1
      [PFloat.num 5, PFloat.num 0, PFloat.num 0, PFloat.num 10] 20 =
      .error (.assertSizeMismatch 4 5) := by
    norm_num [LinearRate_specNoTransform, LinearRateBody]
  rw [h1, h2]
  decide

/-- Claim C3, amended.  `percent_change` maps a numeric series to the
series with first element `0` and element `i` equal to
`(x[i] - x[i-1]) / x[i-1]` (whenever the divisors are nonzero no entry
is NaN and nothing is dropped); a NaN difference such as `(0-0)/0` is
dropped, while a nonzero value divided by zero yields `±inf` and is
kept; and the transform is applied to the input of *every* forecaster,
including `LinearRate`. -/
theorem C3_percent_change_characterisation :
    (∀ (xs : List ℚ), (∀ a ∈ xs.dropLast, a ≠ 0) →
      percent_change (xs.map PFloat.num) =
        PFloat.num 0 :: List.zipWith (fun a b => PFloat.num ((b - a) / a)) xs xs.tail)
    ∧ (∀ p data t, LinearRate p data t = LinearRateBody p (percent_change data) t)
    ∧ (∀ p data w, MovingAverage p data w = MovingAverageBody p (percent_change data) w)
    ∧ (∀ p data w t, ConvergingMovingAverage p data w t =
        ConvergingMovingAverageBody p (percent_change data) w t)
    ∧ (∀ p data w a, ExponentialMovingAverage p data w a =
        ExponentialMovingAverageBody p (percent_change data) w a)
    ∧ (∀ p data w t a, ConvergingExponentialMovingAverage p data w t a =
        ConvergingExponentialMovingAverageBody p (percent_change data) w t a)
    ∧ (∀ p data w ws, WeightedMovingAverage p data w ws =
        WeightedMovingAverageBody p (percent_change data) w ws)
    ∧ (∀ p data w ws t, ConvergingWeightedMovingAverage p data w ws t =
        ConvergingWeightedMovingAverageBody p (percent_change data) w ws t)
    ∧ (∀ p data t phi kappa, MeanReverting p data t phi kappa =
        MeanRevertingBody p (percent_change data) t phi kappa)
    ∧ percent_change [PFloat.num 5, PFloat.num 0, PFloat.num 0, PFloat.num 10] =
        [PFloat.num 0, PFloat.num (-1), PFloat.inf] := by
  refine ⟨percent_change_num, fun _ _ _ => rfl, fun _ _ _ => rfl,
    fun _ _ _ _ => rfl, fun _ _ _ _ => rfl, fun _ _ _ _ _ => rfl,
    fun _ _ _ _ => rfl, fun _ _ _ _ _ => rfl, fun _ _ _ _ _ => rfl, ?_⟩
  norm_num [percent_change, PFloat.sub, PFloat.neg, PFloat.add, PFloat.div,
    PFloat.isNan, List.filter]

/-- Claim C3, witness: the percent-change formula evaluated on the
concrete series `[2, 4]`. -/
theorem C3_percent_change_characterisation_witness :
    percent_change ([2, 4].map PFloat.num) = [PFloat.num 0, PFloat.num 1] := by
  have h := C3_percent_change_characterisation.1 [2, 4] (by norm_num)
  norm_num at h ⊢
  exact h

/-- Claim C10.  `ExponentialMovingAverage` and
`ConvergingExponentialMovingAverage` treat a zero smoothing factor as
falsy: `alpha = 0` is replaced by the default `2 / (window + 1)`, so a
call with `alpha = 0` returns exactly what the call with `alpha`
unset returns, for every horizon, input series, window and terminal
rate. -/
theorem C10_alpha_zero_is_default (p : ℕ) (data : List PFloat) (w : ℕ) (t : ℚ) :
    ExponentialMovingAverage p data w (some 0) =
      ExponentialMovingAverage p data w none
    ∧ ConvergingExponentialMovingAverage p data w t (some 0) =
      ConvergingExponentialMovingAverage p data w t none := by
  have ha : alphaResolve (some 0) w = alphaResolve none w := by
    simp [alphaResolve]
  exact ⟨by simp [ExponentialMovingAverage, ExponentialMovingAverageBody, ha],
    by simp [ConvergingExponentialMovingAverage,
      ConvergingExponentialMovingAverageBody, ha]⟩

/-- Claim C4.  Both valuation methods sum
`Present_CashFlow.iloc[period:]`, i.e. they drop the first `period`
*rows of the table* instead of keeping the last `period` (forecast)
rows.  With one historical year and a two-year horizon the table's PV
column is `[0, 2, 2]`; the code sums only `[2]` and prices the equity
at 4, while the spec's `EV = Σ PV(FCF over horizon) + PV(TV)` gives 6
— so the claimed identity fails whenever the horizon exceeds the
historical length, for the perpetuity and the exit-multiple method
alike. -/
theorem C4_enterprise_value_drops_early_pvs :
    perpetuity_method 1 0 2 [0, 2, 2] 8 0 1 = .ok 4
    ∧ spec_perpetuity_price 1 0 2 [0, 2, 2] 8 0 1 = 6
    ∧ exit_multiple_method 1 2 [0, 2, 2] 2 6 1 0 1 = .ok 4
    ∧ spec_exit_multiple_price 1 2 [0, 2, 2] 2 6 1 0 1 = 6
    ∧ (4 : ℚ) ≠ 6 := by
  refine ⟨?_, ?_, ?_, ?_, by norm_num⟩
  · norm_num [perpetuity_method]
  · norm_num [spec_perpetuity_price, spec_enterprise_value, pySliceLastQ]
  · norm_num [exit_multiple_method]
  · norm_num [spec_exit_multiple_price, spec_enterprise_value, pySliceLastQ]

/-- Claim C5.  `perpetuity_method` raises its WACC assertion exactly
when `wacc ≤ terminal_rate`: the assertion error (with its descriptive
message interpolating both values) is returned iff the precondition is
violated, and is never produced when `wacc > terminal_rate`. -/
theorem C5_perpetuity_raises_iff (wacc g : ℚ) (P : ℕ) (pv : List ℚ)
    (u nd sh : ℚ) :
    perpetuity_method wacc g P pv u nd sh = .error (.assertWacc wacc g) ↔
      wacc ≤ g := by
  unfold perpetuity_method
  by_cases h : wacc > g
  · rw [if_pos h]
    constructor
    · intro hres
      split_ifs at hres <;> simp_all
    · intro hle
      exact absurd hle (not_le.mpr h)
  · rw [if_neg h]
    simpa using not_lt.mp h

/-- Claim C5, witness: with `wacc = 1 ≤ 2 = terminal_rate` the method
returns exactly the WACC assertion error. -/
theorem C5_perpetuity_raises_iff_witness :
    perpetuity_method 1 2 1 [] 0 0 1 = .error (.assertWacc 1 2) :=
  (C5_perpetuity_raises_iff 1 2 1 [] 0 0 1).mpr (by norm_num)

/-- Supporting lemma: `cumProdQAux` always starts with its
accumulator. -/
theorem cumProdQAux_expand (a : ℚ) (l : List ℚ) :
    cumProdQAux a l = a :: (cumProdQAux a l).tail := by
  cases l <;> rfl

/-- Supporting lemma: `np.cumprod` over plain numbers computes the
rational running products. -/
theorem cumProdAux_num (a : ℚ) (xs : List ℚ) :
    cumProdAux (PFloat.num a) (xs.map PFloat.num) =
      (cumProdQAux a xs).map PFloat.num := by
  induction xs generalizing a with
  | nil => rfl
  | cons x l ih => simp [cumProdAux, cumProdQAux, PFloat.mul, ih]

/-- Supporting lemma: `update_category`'s compounding of an exact rate
series is the rational cumulative product scaled by the last
historical value. -/
theorem update_compound_eq (v0 : ℚ) (rs : List ℚ) :
    update_compound v0 rs =
      ((cumProdQ (rs.map (fun r => r + 1))).map (fun c => c * v0)).map PFloat.num := by
  unfold update_compound
  have h1 : rs.map (fun r => (PFloat.num r).add (PFloat.num 1)) =
      (rs.map (fun r => r + 1)).map PFloat.num := by
    rw [List.map_map]; rfl
  rw [h1]
  cases h2 : rs.map (fun r => r + 1) with
  | nil => rfl
  | cons y l =>
      rw [List.map_cons]
      show (cumProdAux (PFloat.num y) (l.map PFloat.num)).map _ = _
      rw [cumProdAux_num]
      show _ = ((cumProdQAux y l).map (fun c => c * v0)).map PFloat.num
      rw [List.map_map, List.map_map]
      rfl

/-- Supporting lemma: a running product of nonzero factors from a
nonzero seed is everywhere nonzero. -/
theorem mem_cumProdQAux_ne_zero (a : ℚ) (l : List ℚ) (ha : a ≠ 0)
    (hl : ∀ x ∈ l, x ≠ 0) : ∀ c ∈ cumProdQAux a l, c ≠ 0 := by
  induction l generalizing a with
  | nil => simpa [cumProdQAux] using ha
  | cons x xs ih =>
      intro c hc
      simp only [cumProdQAux, List.mem_cons] at hc
      rcases hc with rfl | hc
      · exact ha
      · exact ih (a * x) (mul_ne_zero ha (hl x (by simp)))
          (fun y hy => hl y (by simp [hy])) c hc

/-- Supporting lemma: the consecutive relative changes of a scaled
running product recover the factors minus one. -/
theorem zip_ratio_aux (v0 : ℚ) (h0 : v0 ≠ 0) (acc : ℚ) (hacc : acc ≠ 0)
    (l : List ℚ) (hl : ∀ x ∈ l, x ≠ 0) :
    List.zipWith (fun a b => PFloat.num ((b - a) / a))
      ((cumProdQAux acc l).map (· * v0))
      (((cumProdQAux acc l).map (· * v0)).tail) =
      l.map (fun x => PFloat.num (x - 1)) := by
  induction l generalizing acc with
  | nil => rfl
  | cons x xs ih =>
      have hx : x ≠ 0 := hl x (by simp)
      have hxs : ∀ y ∈ xs, y ≠ 0 := fun y hy => hl y (by simp [hy])
      have ihx := ih (acc * x) (mul_ne_zero hacc hx) hxs
      rw [cumProdQAux_expand (acc * x) xs] at ihx
      show List.zipWith _ ((acc :: cumProdQAux (acc * x) xs).map (· * v0))
        (((acc :: cumProdQAux (acc * x) xs).map (· * v0)).tail) = _
      rw [cumProdQAux_expand (acc * x) xs]
      simp only [List.map_cons, List.tail_cons, List.zipWith_cons_cons] at ihx ⊢
      rw [ihx]
      simp only [List.cons.injEq]
      refine ⟨?_, trivial⟩
      congr 1
      field_simp
      ring

/-- Claim C8.  Round trip: compounding a forecast rate series
`r_1..r_h` onto a nonzero last historical value `V0` with
`update_category`'s cumulative product (`V_i = V0 * Π (1 + r_j)`) and
then applying `percent_change` to `[V0, V_1, ..., V_h]` reproduces
exactly `0 :: r_1..r_h`, provided every `1 + r_j` is nonzero (so no
division by zero or NaN drop occurs). -/
theorem C8_compound_percent_change_roundtrip (v0 : ℚ) (rs : List ℚ)
    (h0 : v0 ≠ 0) (h1 : ∀ r ∈ rs, 1 + r ≠ 0) :
    percent_change (PFloat.num v0 :: update_compound v0 rs) =
      PFloat.num 0 :: rs.map PFloat.num := by
  rw [update_compound_eq]
  cases rs with
  | nil => simp [percent_change, cumProdQ]
  | cons r rest =>
      have hfact : ∀ x ∈ (r :: rest).map (fun r => r + 1), x ≠ 0 := by
        intro x hx
        simp only [List.mem_map] at hx
        obtain ⟨y, hy, rfl⟩ := hx
        simpa [add_comm] using h1 y hy
      have hone : cumProdQAux 1 ((r :: rest).map (fun r => r + 1)) =
          1 :: cumProdQ ((r :: rest).map (fun r => r + 1)) := by
        show (1 : ℚ) :: cumProdQAux (1 * (r + 1)) (rest.map (fun r => r + 1)) = _
        rw [one_mul]
        rfl
      have hlist : PFloat.num v0 ::
          ((cumProdQ ((r :: rest).map (fun r => r + 1))).map (fun c => c * v0)).map PFloat.num =
          ((cumProdQAux 1 ((r :: rest).map (fun r => r + 1))).map (fun c => c * v0)).map PFloat.num := by
        rw [hone, List.map_cons, List.map_cons, one_mul]
        rfl
      rw [hlist]
      have hnz : ∀ a ∈ (cumProdQAux 1 ((r :: rest).map (fun r => r + 1))).map (fun c => c * v0),
          a ≠ 0 := by
        intro a ha
        simp only [List.mem_map] at ha
        obtain ⟨c, hc, rfl⟩ := ha
        exact mul_ne_zero (mem_cumProdQAux_ne_zero 1 _ one_ne_zero hfact c hc) h0
      rw [percent_change_num _ (fun a ha => hnz a ((List.dropLast_prefix _).subset ha))]
      rw [zip_ratio_aux v0 h0 1 one_ne_zero _ hfact]
      simp [List.map_map]

/-- Claim C8, witness: `V0 = 2` with rates `[1/2, -2]` compounds to
`[3, -3]` and percent-change recovers `[0, 1/2, -2]`. -/
theorem C8_compound_percent_change_roundtrip_witness :
    percent_change (PFloat.num 2 :: update_compound 2 [1 / 2, -2]) =
      [PFloat.num 0, PFloat.num (1 / 2), PFloat.num (-2)] := by
  rw [C8_compound_percent_change_roundtrip 2 [1 / 2, -2] (by norm_num)
    (by intro r hr; fin_cases hr <;> norm_num)]
  rfl

/-- Supporting lemma: `diff().fillna(0)` preserves the length. -/
theorem pyDiff0_length (xs : List ℚ) : (pyDiff0 xs).length = xs.length := by
  cases xs with
  | nil => rfl
  | cons a t =>
      simp only [pyDiff0, List.length_cons, List.length_zipWith, List.tail_cons]
      omega

/-- Supporting lemma: length of the four-column UFCF combination. -/
theorem ufcfOf_length (nopat da capex delta : List ℚ) :
    (ufcfOf nopat da capex delta).length =
      min (min nopat.length da.length) (min capex.length delta.length) := by
  simp [ufcfOf, List.length_zipWith]

/-- Supporting lemma: entry `i` of `diff().fillna(0)` is `0` at the
first period and the period-over-period difference afterwards. -/
theorem pyDiff0_getD (xs : List ℚ) (i : ℕ) (h : i < xs.length) :
    (pyDiff0 xs).getD i 0 =
      if i = 0 then 0 else xs.getD i 0 - xs.getD (i - 1) 0 := by
  cases xs with
  | nil => simp at h
  | cons a t =>
      cases i with
      | zero => simp [pyDiff0]
      | succ k =>
          have hk : k < t.length := by simpa using h
          have hmin : k < (List.zipWith (fun next prev => next - prev) t (a :: t)).length := by
            simp only [List.length_zipWith]
            omega
          simp only [pyDiff0, List.tail_cons, List.getD_cons_succ]
          rw [List.getD_eq_getElem _ _ hmin, List.getElem_zipWith]
          cases k with
          | zero => simp [List.getD_eq_getElem, hk]
          | succ m =>
              have hm : m < t.length := by omega
              simp [List.getD_eq_getElem, hk, hm, List.getElem_cons_succ]

/-- Supporting lemma: entry `i` of the UFCF combination. -/
theorem ufcfOf_getD (nopat da capex delta : List ℚ) (i : ℕ)
    (h : i < (ufcfOf nopat da capex delta).length) :
    (ufcfOf nopat da capex delta).getD i 0 =
      nopat.getD i 0 + da.getD i 0 - (|capex.getD i 0| + delta.getD i 0) := by
  have hb := h
  simp only [ufcfOf, List.length_zipWith, lt_min_iff] at hb
  obtain ⟨⟨h1, h2⟩, h3, h4⟩ := hb
  rw [List.getD_eq_getElem _ _ h]
  simp only [ufcfOf]
  rw [List.getElem_zipWith, List.getElem_zipWith, List.getElem_zipWith]
  simp [List.getD_eq_getElem, h1, h2, h3, h4]

/-- Claim C7.  On a fully forecasted table (four columns of equal
length `L = hist + horizon`, so `horizon ≤ L`), `get_future_fcf` sets
every period's `Unlevered_CashFlow` to `NOPAT + D&A - |CAPEX| - ΔNWC`
with the first period's ΔNWC treated as zero, and sets
`Present_CashFlow` to zero on the `L - horizon` leading (historical)
periods and to `UFCF_i / (1+WACC)^i` on forecast period
`i = 1..horizon`. -/
theorem C7_future_fcf_characterisation (wacc : ℚ) (P L : ℕ)
    (nopat da capex nwc : List ℚ)
    (hn : nopat.length = L) (hd : da.length = L) (hc : capex.length = L)
    (hw : nwc.length = L) (hP : P ≤ L) :
    (get_future_fcf wacc P nopat da capex nwc).1.length = L
    ∧ (get_future_fcf wacc P nopat da capex nwc).2.length = L
    ∧ (∀ i, i < L →
        (get_future_fcf wacc P nopat da capex nwc).1.getD i 0 =
          nopat.getD i 0 + da.getD i 0 - |capex.getD i 0| -
            (if i = 0 then 0 else nwc.getD i 0 - nwc.getD (i - 1) 0))
    ∧ (∀ i, i < L - P →
        (get_future_fcf wacc P nopat da capex nwc).2.getD i 0 = 0)
    ∧ (∀ j, j < P →
        (get_future_fcf wacc P nopat da capex nwc).2.getD (L - P + j) 0 =
          (get_future_fcf wacc P nopat da capex nwc).1.getD (L - P + j) 0 /
            (1 + wacc) ^ (j + 1)) := by
  have hdl : (pyDiff0 nwc).length = L := by rw [pyDiff0_length, hw]
  have hu : (ufcfOf nopat da capex (pyDiff0 nwc)).length = L := by
    rw [ufcfOf_length, hn, hd, hc, hdl]; simp
  have key : get_future_fcf wacc P nopat da capex nwc =
      (ufcfOf nopat da capex (pyDiff0 nwc),
        let pvs := List.zipWith (fun u d => u / d)
          (pySliceLastQ P (ufcfOf nopat da capex (pyDiff0 nwc)))
          ((List.range P).map (fun i => (1 + wacc) ^ (i + 1)))
        List.replicate ((ufcfOf nopat da capex (pyDiff0 nwc)).length - pvs.length) 0 ++ pvs) := rfl
  set u := ufcfOf nopat da capex (pyDiff0 nwc) with hu_def
  set pvs := List.zipWith (fun u d => u / d) (pySliceLastQ P u)
    ((List.range P).map (fun i => (1 + wacc) ^ (i + 1))) with hpvs_def
  have hslice : (pySliceLastQ P u).length = if P = 0 then L else P := by
    by_cases hP0 : P = 0
    · simp [pySliceLastQ, hP0, hu]
    · simp only [pySliceLastQ, if_neg hP0, List.length_drop, hu]
      omega
  have hpvslen : pvs.length = P := by
    rw [hpvs_def]
    simp only [List.length_zipWith, List.length_map, List.length_range, hslice]
    by_cases hP0 : P = 0
    · simp [hP0]
    · simp [hP0]
  have hkey : get_future_fcf wacc P nopat da capex nwc =
      (u, List.replicate (u.length - pvs.length) 0 ++ pvs) := key
  rw [hkey]
  have hpad : u.length - pvs.length = L - P := by rw [hu, hpvslen]
  refine ⟨hu, ?_, ?_, ?_, ?_⟩
  · simp only [List.length_append, List.length_replicate, hpvslen, hpad]
    omega
  · intro i hi
    have hiu : i < u.length := by omega
    rw [hu_def] at hiu ⊢
    rw [ufcfOf_getD _ _ _ _ _ hiu, pyDiff0_getD _ _ (by omega)]
    by_cases h0 : i = 0 <;> simp [h0] <;> ring
  · intro i hi
    show (List.replicate (u.length - pvs.length) (0 : ℚ) ++ pvs).getD i 0 = 0
    have hlt : i < (List.replicate (u.length - pvs.length) (0 : ℚ)).length := by
      rw [List.length_replicate, hpad]; omega
    rw [List.getD_append _ _ _ _ hlt]
    simp
  · intro j hj
    show (List.replicate (u.length - pvs.length) (0 : ℚ) ++ pvs).getD (L - P + j) 0 =
      u.getD (L - P + j) 0 / (1 + wacc) ^ (j + 1)
    have hge : (List.replicate (u.length - pvs.length) (0 : ℚ)).length ≤ L - P + j := by
      rw [List.length_replicate, hpad]; omega
    rw [List.getD_append_right _ _ _ _ hge, List.length_replicate, hpad]
    have hjj : L - P + j - (L - P) = j := by omega
    rw [hjj, hpvs_def]
    have hlen : (List.zipWith (fun u d => u / d) (pySliceLastQ P u)
        ((List.range P).map (fun i => (1 + wacc) ^ (i + 1)))).length = P := by
      rw [← hpvs_def]; exact hpvslen
    have hjp : j < (List.zipWith (fun u d => u / d) (pySliceLastQ P u)
        ((List.range P).map (fun i => (1 + wacc) ^ (i + 1)))).length := by
      rw [hlen]; exact hj
    rw [List.getD_eq_getElem _ _ hjp, List.getElem_zipWith]
    have hP0 : ¬ P = 0 := by omega
    have hdrop : pySliceLastQ P u = u.drop (u.length - P) := by
      simp [pySliceLastQ, hP0]
    simp only [hdrop, List.getElem_drop, List.getElem_map, List.getElem_range]
    congr 1
    · rw [List.getD_eq_getElem _ _ (by omega : L - P + j < u.length)]
      congr 1
      omega

/-- Claim C7, witness: one historical and one forecast year with
`wacc = 1`; the forecast UFCF is `4 + 2 - |-2| - (2 - 1) = 3`, the
historical PV is `0` and the forecast PV is `3 / 2`. -/
theorem C7_future_fcf_characterisation_witness :
    (get_future_fcf 1 1 [1, 4] [1, 2] [1, -2] [1, 2]).1.getD 1 0 = 3
    ∧ (get_future_fcf 1 1 [1, 4] [1, 2] [1, -2] [1, 2]).2.getD 0 0 = 0
    ∧ (get_future_fcf 1 1 [1, 4] [1, 2] [1, -2] [1, 2]).2.getD 1 0 = 3 / 2 := by
  obtain ⟨h1, h2, h3, h4, h5⟩ := C7_future_fcf_characterisation 1 1 2
    [1, 4] [1, 2] [1, -2] [1, 2] rfl rfl rfl rfl (by norm_num)
  have hufcf : (get_future_fcf 1 1 [1, 4] [1, 2] [1, -2] [1, 2]).1.getD 1 0 = 3 := by
    rw [h3 1 (by norm_num)]
    norm_num
  refine ⟨hufcf, h4 0 (by norm_num), ?_⟩
  have h5' := h5 0 (by norm_num)
  rw [show ((2 : ℕ) - 1 + 0) = 1 from rfl] at h5'
  rw [h5', hufcf]
  norm_num

/-! ## Frame and invariant lemmas for the forecasting pass -/

/-- Supporting lemma: looking up a key other than the overwritten one
in the column-update part of `setCol` is unchanged. -/
theorem find?_key_map_set (tbl : Table) (a k : String) (v : Col) (h : k ≠ a) :
    List.find? (fun kv => kv.1 = k)
      (tbl.map (fun kv => if kv.1 = a then (a, v) else kv)) =
      List.find? (fun kv => kv.1 = k) tbl := by
  induction tbl with
  | nil => rfl
  | cons kv rest ih =>
      by_cases hkv : kv.1 = a
      · simp only [List.map_cons, if_pos hkv, List.find?]
        have h1 : (decide ((a, v).1 = k)) = false := by simp [Ne.symm h]
        have h2 : (decide (kv.1 = k)) = false := by simp [hkv, Ne.symm h]
        rw [h1, h2]
        exact ih
      · simp only [List.map_cons, if_neg hkv, List.find?]
        cases hd : decide (kv.1 = k) <;> simp [ih]

/-- Supporting lemma: appending a column with a different name does
not change a lookup. -/
theorem find?_key_append_other (tbl : Table) (a k : String) (v : Col) (h : k ≠ a) :
    List.find? (fun kv => kv.1 = k) (tbl ++ [(a, v)]) =
      List.find? (fun kv => kv.1 = k) tbl := by
  induction tbl with
  | nil => simp [List.find?, Ne.symm h]
  | cons kv rest ih =>
      simp only [List.cons_append, List.find?]
      cases hd : decide (kv.1 = k) <;> simp [ih]

/-- Supporting lemma: `setCol` only changes the named column. -/
theorem lookupCol_setCol_ne (tbl : Table) (a k : String) (v : Col) (h : k ≠ a) :
    lookupCol (setCol tbl a v) k = lookupCol tbl k := by
  unfold lookupCol setCol
  by_cases hex : tbl.any (fun kv => kv.1 = a)
  · rw [if_pos hex, find?_key_map_set tbl a k v h]
  · rw [if_neg hex, find?_key_append_other tbl a k v h]

/-- Supporting lemma: `setRM` only changes the named entry. -/
theorem lookupRM_setRM_ne (rmap : RateMap) (a k : String) (m : RateMapping)
    (h : k ≠ a) : lookupRM (setRM rmap a m) k = lookupRM rmap k := by
  unfold lookupRM setRM
  induction rmap with
  | nil => rfl
  | cons kv rest ih =>
      by_cases hkv : kv.1 = a
      · simp only [List.map_cons, if_pos hkv, List.find?]
        have h1 : (decide ((a, m).1 = k)) = false := by simp [Ne.symm h]
        have h2 : (decide (kv.1 = k)) = false := by simp [hkv, Ne.symm h]
        rw [h1, h2]
        simpa using ih
      · simp only [List.map_cons, if_neg hkv, List.find?]
        cases hd : decide (kv.1 = k) <;> simpa [hd] using ih

/-- Supporting lemma: overwriting an existing entry makes lookups
return the new value. -/
theorem lookupRM_setRM_self (rmap : RateMap) (c : String) (m₀ m : RateMapping)
    (h : lookupRM rmap c = some m₀) : lookupRM (setRM rmap c m) c = some m := by
  unfold lookupRM setRM at *
  induction rmap with
  | nil => simp at h
  | cons kv rest ih =>
      by_cases hkv : kv.1 = c
      · simp only [List.map_cons, if_pos hkv, List.find?]
        simp
      · simp only [List.map_cons, if_neg hkv, List.find?] at h ⊢
        have hd : (decide (kv.1 = c)) = false := by simp [hkv]
        rw [hd] at h ⊢
        simpa using ih (by simpa [hd] using h)

/-- Supporting lemma: a successful `update_category` touches only its
own column. -/
theorem update_category_ok_frame {P H : ℕ} {c : String} {tbl tbl' : Table}
    (h : update_category P H c tbl = .ok tbl') (k : String) (hk : k ≠ c) :
    lookupCol tbl' k = lookupCol tbl k := by
  unfold update_category at h
  split at h
  · exact absurd h (by simp)
  · split at h
    · exact absurd h (by simp)
    · split at h
      · exact absurd h (by simp)
      · simp only at h
        split at h
        · rw [← Except.ok.inj h]
          exact lookupCol_setCol_ne _ _ _ _ hk
        · exact absurd h (by simp)

/-- Supporting lemma: a successful `Except` bind decomposes. -/
theorem except_bind_ok {α β : Type} {x : Except PyErr α} {f : α → Except PyErr β}
    {b : β} (h : x >>= f = .ok b) : ∃ a, x = .ok a ∧ f a = .ok b := by
  cases x with
  | error e => simp [Bind.bind, Except.bind] at h
  | ok a => exact ⟨a, rfl, by simpa [Bind.bind, Except.bind] using h⟩

set_option maxHeartbeats 1000000 in
/-- Supporting lemma: a successful mode dispatch for column `c` only
writes table columns `c` and `c_rates`, and only the rate-map entry of
`c`. -/
theorem pcd_frame {g : ℚ} {P H : ℕ} {c : String}
    {m : RateMapping} {tbl : Table} {rmap : RateMap} {tbl' : Table} {rmap' : RateMap}
    (h : processColumnDispatch g P H c m tbl rmap = .ok (tbl', rmap')) :
    (∀ k, k ≠ c → k ≠ c ++ "_rates" → lookupCol tbl' k = lookupCol tbl k)
    ∧ (∀ k, k ≠ c → lookupRM rmap' k = lookupRM rmap k) := by
  unfold processColumnDispatch at h
  simp only [Bind.bind, Except.bind, pure, Except.pure] at h
  cases hmode : m.mode <;> rw [hmode] at h
  all_goals (repeat' (first | split at h | simp only at h))
  all_goals simp at h
  all_goals obtain ⟨rfl, rfl⟩ := h
  all_goals refine ⟨fun k hk1 hk2 => ?_, fun k hk1 => ?_⟩
  all_goals
    repeat
      first
      | rfl
      | (rw [lookupCol_setCol_ne _ _ _ _ hk2])
      | (rw [lookupRM_setRM_ne _ _ _ _ hk1])
      | (rw [update_category_ok_frame (by assumption) k hk1])

/-- Supporting lemma: the full loop body for column `c` (dispatch plus
the bottom `update_category`) only writes `c`, `c_rates` and `c`'s
rate-map entry. -/
theorem processColumn_ok_frame {g : ℚ} {P H : ℕ} {c : String}
    {m : RateMapping} {tbl : Table} {rmap : RateMap} {tbl' : Table} {rmap' : RateMap}
    (h : processColumn g P H c m tbl rmap = .ok (tbl', rmap')) :
    (∀ k, k ≠ c → k ≠ c ++ "_rates" → lookupCol tbl' k = lookupCol tbl k)
    ∧ (∀ k, k ≠ c → lookupRM rmap' k = lookupRM rmap k) := by
  unfold processColumn at h
  obtain ⟨⟨tbl1, rmap1⟩, h1, h2⟩ := except_bind_ok h
  simp only at h2
  obtain ⟨tbl2, h3, h4⟩ := except_bind_ok h2
  simp only [pure, Except.pure, Except.ok.injEq, Prod.mk.injEq] at h4
  obtain ⟨rfl, rfl⟩ := h4
  obtain ⟨hf1, hf2⟩ := pcd_frame h1
  exact ⟨fun k hk1 hk2 => by
    rw [update_category_ok_frame h3 k hk1, hf1 k hk1 hk2], hf2⟩

/-- Supporting lemma: a column with no rate-map entry keeps its NaN
cells through a successful loop run — nothing ever fills it. -/
theorem runCols_ok_preserves_missing_nan (g : ℚ) (P H : ℕ) (k : String)
    (cols : List String) (tbl : Table) (rmap : RateMap) (log log' : List String)
    (tbl' : Table) (rmap' : RateMap) (col : Col)
    (hconf : ∀ c' ∈ cols, k ≠ c' ++ "_rates")
    (hmap : lookupRM rmap k = none)
    (hcol : lookupCol tbl k = some col) (hnan : col.any PFloat.isNan = true)
    (hrun : runCols g P H cols tbl rmap log = (log', .ok (tbl', rmap'))) :
    ∃ col', lookupCol tbl' k = some col' ∧ col'.any PFloat.isNan = true := by
  induction cols generalizing tbl rmap log col with
  | nil =>
      simp only [runCols, Prod.mk.injEq, Except.ok.injEq] at hrun
      obtain ⟨-, rfl, rfl⟩ := hrun
      exact ⟨col, hcol, hnan⟩
  | cons c₀ rest ih =>
      simp only [runCols] at hrun
      cases hlk : lookupRM rmap c₀ with
      | none =>
          rw [hlk] at hrun
          exact ih _ _ _ _ (fun c' hc' => hconf c' (List.mem_cons_of_mem _ hc'))
            hmap hcol hnan hrun
      | some m =>
          rw [hlk] at hrun
          simp only at hrun
          cases hpc : processColumn g P H c₀ m tbl rmap with
          | error e =>
              rw [hpc] at hrun
              simp at hrun
          | ok pr =>
              obtain ⟨tblx, rmapx⟩ := pr
              rw [hpc] at hrun
              simp only at hrun
              have hkc : k ≠ c₀ := by
                rintro rfl
                rw [hmap] at hlk
                cases hlk
              obtain ⟨hf1, hf2⟩ := processColumn_ok_frame hpc
              refine ih _ _ _ col
                (fun c' hc' => hconf c' (List.mem_cons_of_mem _ hc')) ?_ ?_ hnan hrun
              · rw [hf2 k hkc]
                exact hmap
              · rw [hf1 k hkc (hconf c₀ (List.mem_cons_self _ _))]
                exact hcol

/-- Supporting lemma: a NaN cell found through `lookupCol` makes the
final NaN check of `forcast_categories` fire. -/
theorem tableHasNan_of_lookup {tbl : Table} {k : String} {col : Col}
    (h : lookupCol tbl k = some col) (hn : col.any PFloat.isNan = true) :
    tableHasNan tbl = true := by
  unfold lookupCol at h
  obtain ⟨kv, hfind, hsnd⟩ := Option.map_eq_some'.mp h
  have hmem := List.mem_of_find?_eq_some hfind
  unfold tableHasNan
  rw [List.any_eq_true]
  exact ⟨kv, hmem, by rw [show kv.2 = col from hsnd]; exact hn⟩

unseal Rat.add Rat.mul Rat.inv Rat.sub in
/-- Claim C6, counterexample.  A two-column table with one historical
and one forecast row, where only `revenue` has a rate-map entry: the
pass prints its warning and skips `ebit`, but then the final NaN
assertion fires on `ebit`'s unfilled forecast cell and the run aborts
with an error — no partial result is returned. -/
theorem C6_counterexample :
    forcast_categories 0 1 1
      [("revenue", [PFloat.num 10, PFloat.nan]), ("ebit", [PFloat.num 5, PFloat.nan])]
      [("revenue", ⟨Mode.manual, none, some [PFloat.num 1], none⟩)] =
    (["[ERROR] ebit does not exist in dcf column"], .error .nanDetected) := by
  decide

/-- Claim C6, amended.  If any table column `c` has no rate-map entry
and holds a NaN cell (as every column does before its forecast rows
are filled), then `forcast_categories` returns an error: the skip is
locally non-fatal and logged, but the final
`assert not self.dcf.isnull().values.any()` aborts the run, so no
partial result is produced.  (The technical side condition rules out a
pre-existing column literally named like another column's generated
`_rates` column.) -/
theorem C6_skipped_column_aborts_run (g : ℚ) (P H : ℕ) (tbl : Table)
    (rmap : RateMap) (c : String) (col : Col)
    (hconf : ∀ c' ∈ tbl.map Prod.fst, c ≠ c' ++ "_rates")
    (hmap : lookupRM rmap c = none)
    (hcol : lookupCol tbl c = some col)
    (hnan : col.any PFloat.isNan = true) :
    ∃ e, (forcast_categories g P H tbl rmap).2 = Except.error e := by
  cases hrun : runCols g P H (tbl.map Prod.fst) tbl rmap [] with
  | mk log res =>
      cases res with
      | error e =>
          refine ⟨e, ?_⟩
          simp only [forcast_categories]
          rw [hrun]
      | ok pr =>
          obtain ⟨tbl', rmap'⟩ := pr
          obtain ⟨col', hcol', hnan'⟩ := runCols_ok_preserves_missing_nan
            g P H c _ tbl rmap [] log tbl' rmap' col hconf hmap hcol hnan hrun
          refine ⟨.nanDetected, ?_⟩
          simp only [forcast_categories]
          rw [hrun]
          simp only [tableHasNan_of_lookup hcol' hnan']
          simp

/-- Claim C6, witness: the amended theorem applied to the concrete
two-column scenario. -/
theorem C6_skipped_column_aborts_run_witness :
    ∃ e, (forcast_categories 0 1 1
      [("revenue", [PFloat.num 10, PFloat.nan]), ("ebit", [PFloat.num 5, PFloat.nan])]
      [("revenue", ⟨Mode.manual, none, some [PFloat.num 1], none⟩)]).2 =
      Except.error e :=
  C6_skipped_column_aborts_run 0 1 1 _ _ "ebit" [PFloat.num 5, PFloat.nan]
    (by decide) (by decide) (by decide) (by decide)

/-- Supporting lemma: a successful loop-body run decomposes into a
successful dispatch (fixing the final rate map) followed by a
successful bottom `update_category`. -/
theorem processColumn_ok_decomp {g : ℚ} {P H : ℕ} {c : String}
    {m : RateMapping} {tbl : Table} {rmap : RateMap} {tbl' : Table} {rmap' : RateMap}
    (h : processColumn g P H c m tbl rmap = .ok (tbl', rmap')) :
    ∃ tbl1, processColumnDispatch g P H c m tbl rmap = .ok (tbl1, rmap')
      ∧ update_category P H c tbl1 = .ok tbl' := by
  unfold processColumn at h
  obtain ⟨⟨tbl1, rmap1⟩, h1, h2⟩ := except_bind_ok h
  simp only at h2
  obtain ⟨tbl2, h3, h4⟩ := except_bind_ok h2
  simp only [pure, Except.pure, Except.ok.injEq, Prod.mk.injEq] at h4
  obtain ⟨rfl, rfl⟩ := h4
  exact ⟨tbl1, h1, h3⟩

set_option maxHeartbeats 1000000 in
/-- Supporting lemma: a successful hybrid dispatch for column `c`
leaves the rate map with `c`'s `manual_rates` extended in place by NaN
padding up to the horizon (`manual_rates.extend([np.nan] * diff)`),
keeping the mode. -/
theorem pcd_hybrid_mutates {g : ℚ} {P H : ℕ} {c : String}
    {m : RateMapping} {tbl : Table} {rmap : RateMap} {tbl' : Table} {rmap' : RateMap}
    {mr : List PFloat}
    (hmode : m.mode = Mode.hybrid) (hmr : m.manual_rates = some mr)
    (hex : ∃ m₀, lookupRM rmap c = some m₀)
    (h : processColumnDispatch g P H c m tbl rmap = .ok (tbl', rmap')) :
    ∃ m', lookupRM rmap' c = some m'
      ∧ m'.manual_rates = some (mr ++ List.replicate (P - mr.length) PFloat.nan)
      ∧ m'.mode = m.mode := by
  obtain ⟨m₀, hm₀⟩ := hex
  unfold processColumnDispatch at h
  rw [hmode, hmr] at h
  simp only [Bind.bind, Except.bind] at h
  all_goals (repeat' (first | split at h | simp only at h))
  all_goals simp [pure, Except.pure] at h
  all_goals obtain ⟨rfl, rfl⟩ := h
  · exact ⟨_, lookupRM_setRM_self _ _ _ _
      (lookupRM_setRM_self _ _ m₀ _ hm₀), rfl, hmode.symm ▸ rfl⟩
  · exact ⟨_, lookupRM_setRM_self _ _ m₀ _ hm₀, rfl, rfl⟩

/-- Supporting lemma: once a hybrid entry's `manual_rates` has at
least `period` entries, dispatching it again fails its strict
length assertion. -/
theorem pcd_hybrid_full_errors {g : ℚ} {P H : ℕ} {c : String}
    {m : RateMapping} {tbl : Table} {rmap : RateMap} {l : List PFloat}
    (hmode : m.mode = Mode.hybrid) (hmr : m.manual_rates = some l)
    (hlen : ¬ l.length < P) :
    processColumnDispatch g P H c m tbl rmap =
      .error (.assertMsg "Mismatch in manual input length") := by
  unfold processColumnDispatch
  rw [hmode, hmr]
  simp only
  rw [if_neg hlen]

/-- Supporting lemma: a failing dispatch fails the whole loop body. -/
theorem processColumn_error_of_dispatch {g : ℚ} {P H : ℕ} {c : String}
    {m : RateMapping} {tbl : Table} {rmap : RateMap} {e : PyErr}
    (hd : processColumnDispatch g P H c m tbl rmap = .error e) :
    processColumn g P H c m tbl rmap = .error e := by
  unfold processColumn
  simp [hd, Bind.bind, Except.bind]

/-- Supporting lemma: after the in-place extension, `c`'s rate-map
entry survives the rest of a successful loop unchanged (a second pass
over the same column would fail the strict length assertion, so in a
successful run it never happens). -/
theorem runCols_ok_hybrid_kept {g : ℚ} {P H : ℕ} {c : String} {m' : RateMapping}
    {l : List PFloat}
    (cols : List String) (tbl : Table) (rmap : RateMap) (log log' : List String)
    (tbl' : Table) (rmap' : RateMap)
    (hm : lookupRM rmap c = some m') (hmode : m'.mode = Mode.hybrid)
    (hmr : m'.manual_rates = some l) (hlen : ¬ l.length < P)
    (hrun : runCols g P H cols tbl rmap log = (log', .ok (tbl', rmap'))) :
    lookupRM rmap' c = some m' := by
  induction cols generalizing tbl rmap log with
  | nil =>
      simp only [runCols, Prod.mk.injEq, Except.ok.injEq] at hrun
      obtain ⟨-, -, rfl⟩ := hrun
      exact hm
  | cons c₀ rest ih =>
      simp only [runCols] at hrun
      by_cases hc0 : c₀ = c
      · subst hc0
        rw [hm] at hrun
        simp only at hrun
        rw [processColumn_error_of_dispatch
          (pcd_hybrid_full_errors hmode hmr hlen)] at hrun
        simp at hrun
      · cases hlk : lookupRM rmap c₀ with
        | none =>
            rw [hlk] at hrun
            exact ih _ _ _ hm hrun
        | some m₀ =>
            rw [hlk] at hrun
            simp only at hrun
            cases hpc : processColumn g P H c₀ m₀ tbl rmap with
            | error e =>
                rw [hpc] at hrun
                simp at hrun
            | ok pr =>
                obtain ⟨tblx, rmapx⟩ := pr
                rw [hpc] at hrun
                simp only at hrun
                have hpres := (processColumn_ok_frame hpc).2 c (fun hcc => hc0 hcc.symm)
                exact ih _ _ _ (hpres.trans hm) hrun

/-- Supporting lemma: over a successful loop covering column `c`, a
hybrid entry with a short `manual_rates` ends NaN-extended to the full
horizon in the returned rate map. -/
theorem runCols_hybrid_mutates {g : ℚ} {P H : ℕ} {c : String} {m : RateMapping}
    {mr : List PFloat}
    (cols : List String) (tbl : Table) (rmap : RateMap) (log log' : List String)
    (tbl' : Table) (rmap' : RateMap)
    (hc : c ∈ cols) (hm : lookupRM rmap c = some m)
    (hmode : m.mode = Mode.hybrid) (hmr : m.manual_rates = some mr)
    (hlen : mr.length < P)
    (hrun : runCols g P H cols tbl rmap log = (log', .ok (tbl', rmap'))) :
    ∃ m', lookupRM rmap' c = some m'
      ∧ m'.manual_rates = some (mr ++ List.replicate (P - mr.length) PFloat.nan) := by
  induction cols generalizing tbl rmap log with
  | nil => simp at hc
  | cons c₀ rest ih =>
      simp only [runCols] at hrun
      by_cases hc0 : c₀ = c
      · subst hc0
        rw [hm] at hrun
        simp only at hrun
        cases hpc : processColumn g P H c₀ m tbl rmap with
        | error e =>
            rw [hpc] at hrun
            simp at hrun
        | ok pr =>
            obtain ⟨tblx, rmapx⟩ := pr
            rw [hpc] at hrun
            simp only at hrun
            obtain ⟨tbl1, hd, hu⟩ := processColumn_ok_decomp hpc
            obtain ⟨m₂, hm₂, hmr₂, hmode₂⟩ := pcd_hybrid_mutates hmode hmr ⟨m, hm⟩ hd
            have hextlen : ¬ ((mr ++ List.replicate (P - mr.length) PFloat.nan).length < P) := by
              simp only [List.length_append, List.length_replicate]
              omega
            exact ⟨m₂, runCols_ok_hybrid_kept rest tblx rmapx log log' tbl' rmap'
              hm₂ (hmode₂.trans hmode) hmr₂ hextlen hrun, hmr₂⟩
      · have hcr : c ∈ rest := by
          rcases List.mem_cons.mp hc with h1 | h1
          · exact absurd h1.symm hc0
          · exact h1
        cases hlk : lookupRM rmap c₀ with
        | none =>
            rw [hlk] at hrun
            exact ih _ _ _ hcr hm hrun
        | some m₀ =>
            rw [hlk] at hrun
            simp only at hrun
            cases hpc : processColumn g P H c₀ m₀ tbl rmap with
            | error e =>
                rw [hpc] at hrun
                simp at hrun
            | ok pr =>
                obtain ⟨tblx, rmapx⟩ := pr
                rw [hpc] at hrun
                simp only at hrun
                have hpres := (processColumn_ok_frame hpc).2 c (fun hcc => hc0 hcc.symm)
                exact ih _ _ _ hcr (hpres.trans hm) hrun

unseal Rat.add Rat.mul Rat.inv Rat.sub in
/-- Claim C9, counterexample.  A hybrid `revenue` column with
`manual_rates = [1]`, horizon 2 and a `MovingAverage` tail: the run
succeeds, but the returned rate map holds
`manual_rates = [1, NaN]` — the caller's list was extended in place
with NaN padding, so the rate-map entry does not hold the same values
as before the call. -/
theorem C9_counterexample :
    forcast_categories 0 2 2
      [("revenue", [PFloat.num 10, PFloat.num 20, PFloat.nan, PFloat.nan])]
      [("revenue", ⟨Mode.hybrid, some "MovingAverage", some [PFloat.num 1],
        some ⟨some 1, none, none, none, none, none⟩⟩)] =
    ([], .ok
      ([("revenue", [PFloat.num 10, PFloat.num 20, PFloat.num 40, PFloat.num 80]),
        ("revenue_rates", [PFloat.num 0, PFloat.num 1, PFloat.num 1, PFloat.num 1])],
       [("revenue", ⟨Mode.hybrid, some "MovingAverage", some [PFloat.num 1, PFloat.nan],
         some ⟨some 1, none, none, none, none, none⟩⟩)]))
    ∧ some [PFloat.num 1, PFloat.nan] ≠ some [PFloat.num 1] := by
  constructor
  · decide
  · decide

/-- Claim C9, amended.  Forecasting a column does *not* leave the
caller-supplied rate-map entry unchanged: for every successful
`forcast_categories` run over a table containing a hybrid column `c`
whose `manual_rates` is shorter than the horizon, the returned rate
map holds `c`'s `manual_rates` extended in place with NaN padding up
to the horizon — a different value than before the call.  (The
forecaster input series are copied; the shared mutable state is the
rate map itself, whose `manual_rates` list is extended and whose
`terminal_rate` sentinel is overwritten.) -/
theorem C9_hybrid_mutates_rate_map {g : ℚ} {P H : ℕ} {c : String}
    {m : RateMapping} {mr : List PFloat} {tbl : Table} {rmap : RateMap}
    {log' : List String} {tbl' : Table} {rmap' : RateMap}
    (hc : c ∈ tbl.map Prod.fst) (hm : lookupRM rmap c = some m)
    (hmode : m.mode = Mode.hybrid) (hmr : m.manual_rates = some mr)
    (hlen : mr.length < P)
    (hrun : forcast_categories g P H tbl rmap = (log', .ok (tbl', rmap'))) :
    ∃ m', lookupRM rmap' c = some m'
      ∧ m'.manual_rates = some (mr ++ List.replicate (P - mr.length) PFloat.nan)
      ∧ m'.manual_rates ≠ some mr := by
  simp only [forcast_categories] at hrun
  cases hr : runCols g P H (tbl.map Prod.fst) tbl rmap [] with
  | mk log res =>
      rw [hr] at hrun
      cases res with
      | error e => simp at hrun
      | ok pr =>
          obtain ⟨tblx, rmapx⟩ := pr
          simp only at hrun
          split at hrun
          · simp at hrun
          · simp only [Prod.mk.injEq, Except.ok.injEq] at hrun
            obtain ⟨rfl, rfl, rfl⟩ := hrun
            obtain ⟨m', hm', hmr'⟩ := runCols_hybrid_mutates _ tbl rmap [] log
              tblx rmapx hc hm hmode hmr hlen hr
            refine ⟨m', hm', hmr', ?_⟩
            rw [hmr']
            intro hcontra
            have := congrArg (fun o => (o.getD []).length) hcontra
            simp only [Option.getD_some, List.length_append, List.length_replicate] at this
            omega

unseal Rat.add Rat.mul Rat.inv Rat.sub in
/-- Claim C9, witness: the amended theorem applied to the concrete
hybrid run of the counterexample scenario. -/
theorem C9_hybrid_mutates_rate_map_witness :
    ∃ m', lookupRM
        [("revenue", ⟨Mode.hybrid, some "MovingAverage", some [PFloat.num 1, PFloat.nan],
          some ⟨some 1, none, none, none, none, none⟩⟩)] "revenue" = some m'
      ∧ m'.manual_rates =
          some ([PFloat.num 1] ++ List.replicate (2 - [PFloat.num 1].length) PFloat.nan)
      ∧ m'.manual_rates ≠ some [PFloat.num 1] :=
  @C9_hybrid_mutates_rate_map 0 2 2 "revenue"
    ⟨Mode.hybrid, some "MovingAverage", some [PFloat.num 1],
      some ⟨some 1, none, none, none, none, none⟩⟩
    [PFloat.num 1]
    [("revenue", [PFloat.num 10, PFloat.num 20, PFloat.nan, PFloat.nan])]
    [("revenue", ⟨Mode.hybrid, some "MovingAverage", some [PFloat.num 1],
      some ⟨some 1, none, none, none, none, none⟩⟩)]
    []
    [("revenue", [PFloat.num 10, PFloat.num 20, PFloat.num 40, PFloat.num 80]),
      ("revenue_rates", [PFloat.num 0, PFloat.num 1, PFloat.num 1, PFloat.num 1])]
    [("revenue", ⟨Mode.hybrid, some "MovingAverage", some [PFloat.num 1, PFloat.nan],
      some ⟨some 1, none, none, none, none, none⟩⟩)]
    (by decide) (by decide) rfl rfl (by decide) (by decide)
